import Mathlib

/-!
# Shallow embedding of the AQI calculator

Embedding of the calculator core of this repository (`src/main.py`,
`src/p1.py`, `src/unnamed/part_000`; the three files contain the same
calculator definitions).  Python floats are modelled as exact rationals,
Python ints as `ℤ`, Python strings as `List Char`.  Python's `round`
(round-half-to-even) is modelled by `pyRound`.  A breakpoint table is a list
of rows `(bp_lo, bp_hi, i_lo, i_hi)` with rational concentration bounds and
integral index bounds, exactly as the source writes them.
-/

/-- Python's `int(round(x))`: round to the nearest integer, halves to the
even neighbour. -/
def pyRound (q : ℚ) : ℤ :=
  if q - ⌊q⌋ < 1/2 then ⌊q⌋
  else if 1/2 < q - ⌊q⌋ then ⌊q⌋ + 1
  else if ⌊q⌋ % 2 = 0 then ⌊q⌋ else ⌊q⌋ + 1

/-- `PM25_BREAKPOINTS` from src/main.py lines 13-21. -/
def PM25_BREAKPOINTS : List (ℚ × ℚ × ℤ × ℤ) :=
  [ (0.0, 12.0, 0, 50),
    (12.1, 35.4, 51, 100),
    (35.5, 55.4, 101, 150),
    (55.5, 150.4, 151, 200),
    (150.5, 250.4, 201, 300),
    (250.5, 350.4, 301, 400),
    (350.5, 500.4, 401, 500) ]

/-- `PM10_BREAKPOINTS` from src/main.py lines 23-31. -/
def PM10_BREAKPOINTS : List (ℚ × ℚ × ℤ × ℤ) :=
  [ (0, 54, 0, 50),
    (55, 154, 51, 100),
    (155, 254, 101, 150),
    (255, 354, 151, 200),
    (355, 424, 201, 300),
    (425, 504, 301, 400),
    (505, 604, 401, 500) ]

/-- `aqi_for_concentration` from src/main.py lines 34-43: scan the table in
order; on the first row with `bp_lo <= C <= bp_hi` return
`int(round((i_hi - i_lo) / (bp_hi - bp_lo) * (C - bp_lo) + i_lo))`;
if no row matches, return `None`. -/
def aqi_for_concentration (C : ℚ) : List (ℚ × ℚ × ℤ × ℤ) → Option ℤ
  | [] => none
  | (bp_lo, bp_hi, i_lo, i_hi) :: rest =>
    if bp_lo ≤ C ∧ C ≤ bp_hi then
      some (pyRound ((i_hi - i_lo) / (bp_hi - bp_lo) * (C - bp_lo) + i_lo))
    else aqi_for_concentration C rest

/-- `aqi_category` from src/main.py lines 46-57. -/
def aqi_category (aqi : ℤ) : String :=
  if aqi ≤ 50 then "Good"
  else if aqi ≤ 100 then "Moderate"
  else if aqi ≤ 150 then "Unhealthy for Sensitive Groups"
  else if aqi ≤ 200 then "Unhealthy"
  else if aqi ≤ 300 then "Very Unhealthy"
  else "Hazardous"

/-- Python `k.strip().lower()` on a string modelled as a character list
(src/main.py line 67). -/
def normalize_key (k : List Char) : List Char :=
  (((k.dropWhile Char.isWhitespace).reverse.dropWhile Char.isWhitespace).reverse).map
    Char.toLower

/-- Python dict assignment `d[k] = v` on a dict modelled as an ordered
association list: overwrite in place when the key is present, append
otherwise. -/
def dictInsert (d : List (List Char × Option ℤ)) (k : List Char) (v : Option ℤ) :
    List (List Char × Option ℤ) :=
  if d.any (fun e => e.1 = k) then d.map (fun e => if e.1 = k then (k, v) else e)
  else d ++ [(k, v)]

/-- One iteration of the loop of `compute_aqi_for_pollutants`
(src/main.py lines 66-73): normalize the key, select the table (PM2.5 for
`"pm2.5"`/`"pm25"`, PM10 for `"pm10"`), and store the computed index (or
`None` for an unrecognized key) under the original key. -/
def compute_step (results : List (List Char × Option ℤ)) (kv : List Char × ℚ) :
    List (List Char × Option ℤ) :=
  if normalize_key kv.1 = "pm2.5".data ∨ normalize_key kv.1 = "pm25".data then
    dictInsert results kv.1 (aqi_for_concentration kv.2 PM25_BREAKPOINTS)
  else if normalize_key kv.1 = "pm10".data then
    dictInsert results kv.1 (aqi_for_concentration kv.2 PM10_BREAKPOINTS)
  else dictInsert results kv.1 none

/-- `compute_aqi_for_pollutants` from src/main.py lines 60-74: start from an
empty result dict and run `compute_step` over the readings in order. -/
def compute_aqi_for_pollutants (concs : List (List Char × ℚ)) :
    List (List Char × Option ℤ) :=
  concs.foldl compute_step []

/-- The per-reading result the spec describes: the index from the table
selected by the normalized (trimmed, lower-cased) key, `None` for an
unrecognized key. -/
def pollutant_result (kv : List Char × ℚ) : Option ℤ :=
  if normalize_key kv.1 = "pm2.5".data ∨ normalize_key kv.1 = "pm25".data then
    aqi_for_concentration kv.2 PM25_BREAKPOINTS
  else if normalize_key kv.1 = "pm10".data then
    aqi_for_concentration kv.2 PM10_BREAKPOINTS
  else none

/-- The overall-AQI computation of the demo entry point (src/main.py lines
115-123): the maximum of the defined per-pollutant indices, `None` when
there is none. -/
def overall_aqi (results : List (List Char × Option ℤ)) : Option ℤ :=
  match results.filterMap Prod.snd with
  | [] => none
  | a :: rest => some (rest.foldl max a)

/-- The demo reading set from src/main.py lines 106-110. -/
def sample : List (List Char × ℚ) :=
  [("PM2.5".data, 35.0), ("PM10".data, 80), ("CO".data, 0.7)]

/-! ## Facts about `pyRound` -/

theorem pyRound_floor_le (q : ℚ) : ⌊q⌋ ≤ pyRound q := by
  unfold pyRound
  split_ifs <;> omega

theorem pyRound_le_floor_add_one (q : ℚ) : pyRound q ≤ ⌊q⌋ + 1 := by
  unfold pyRound
  split_ifs <;> omega

theorem pyRound_intCast (n : ℤ) : pyRound (n : ℚ) = n := by
  unfold pyRound
  rw [Int.floor_intCast]
  simp

theorem pyRound_mono {q₁ q₂ : ℚ} (h : q₁ ≤ q₂) : pyRound q₁ ≤ pyRound q₂ := by
  rcases lt_or_eq_of_le (Int.floor_mono h) with hf | hf
  · calc pyRound q₁ ≤ ⌊q₁⌋ + 1 := pyRound_le_floor_add_one q₁
    _ ≤ ⌊q₂⌋ := by omega
    _ ≤ pyRound q₂ := pyRound_floor_le q₂
  · unfold pyRound
    rw [hf]
    have hr : q₁ - ⌊q₂⌋ ≤ q₂ - ⌊q₂⌋ := by
      have := (Int.floor_mono h)
      linarith
    split_ifs <;> try omega
    all_goals (exfalso; linarith)

theorem pyRound_le_of_le_intCast {q : ℚ} {n : ℤ} (h : q ≤ (n : ℚ)) :
    pyRound q ≤ n := by
  have := pyRound_mono h
  rwa [pyRound_intCast] at this

theorem intCast_le_pyRound {q : ℚ} {n : ℤ} (h : (n : ℚ) ≤ q) :
    n ≤ pyRound q := by
  have := pyRound_mono h
  rwa [pyRound_intCast] at this

/-! ## Facts about one interpolation segment -/

theorem seg_lower {lo hi C : ℚ} {ilo ihi : ℤ} (hlh : lo < hi) (hio : ilo ≤ ihi)
    (hC : lo ≤ C) :
    ilo ≤ pyRound (((ihi : ℚ) - ilo) / (hi - lo) * (C - lo) + ilo) := by
  apply intCast_le_pyRound
  have hnum : (0 : ℚ) ≤ (ihi : ℚ) - ilo := by
    have : (ilo : ℚ) ≤ (ihi : ℚ) := by exact_mod_cast hio
    linarith
  have hden : (0 : ℚ) < hi - lo := by linarith
  have : (0 : ℚ) ≤ ((ihi : ℚ) - ilo) / (hi - lo) * (C - lo) :=
    mul_nonneg (div_nonneg hnum hden.le) (by linarith)
  linarith

theorem seg_upper {lo hi C : ℚ} {ilo ihi : ℤ} (hlh : lo < hi) (hio : ilo ≤ ihi)
    (hC : C ≤ hi) :
    pyRound (((ihi : ℚ) - ilo) / (hi - lo) * (C - lo) + ilo) ≤ ihi := by
  apply pyRound_le_of_le_intCast
  have hnum : (0 : ℚ) ≤ (ihi : ℚ) - ilo := by
    have : (ilo : ℚ) ≤ (ihi : ℚ) := by exact_mod_cast hio
    linarith
  have hden : (0 : ℚ) < hi - lo := by linarith
  have h1 : ((ihi : ℚ) - ilo) / (hi - lo) * (C - lo) ≤
      ((ihi : ℚ) - ilo) / (hi - lo) * (hi - lo) :=
    mul_le_mul_of_nonneg_left (by linarith) (div_nonneg hnum hden.le)
  rw [div_mul_cancel₀ _ hden.ne'] at h1
  linarith

theorem seg_mono {lo hi C₁ C₂ : ℚ} {ilo ihi : ℤ} (hlh : lo < hi) (hio : ilo ≤ ihi)
    (hC : C₁ ≤ C₂) :
    pyRound (((ihi : ℚ) - ilo) / (hi - lo) * (C₁ - lo) + ilo) ≤
      pyRound (((ihi : ℚ) - ilo) / (hi - lo) * (C₂ - lo) + ilo) := by
  apply pyRound_mono
  have hnum : (0 : ℚ) ≤ (ihi : ℚ) - ilo := by
    have : (ilo : ℚ) ≤ (ihi : ℚ) := by exact_mod_cast hio
    linarith
  have hden : (0 : ℚ) < hi - lo := by linarith
  have h1 : ((ihi : ℚ) - ilo) / (hi - lo) * (C₁ - lo) ≤
      ((ihi : ℚ) - ilo) / (hi - lo) * (C₂ - lo) :=
    mul_le_mul_of_nonneg_left (by linarith) (div_nonneg hnum hden.le)
  linarith

/-! ## Facts about table scanning -/

/-- A single breakpoint row is well formed: its concentration range is a
proper interval and its index range is ordered. -/
def RowOK (r : ℚ × ℚ × ℤ × ℤ) : Prop := r.1 < r.2.1 ∧ r.2.2.1 ≤ r.2.2.2

/-- A breakpoint table is well formed: every row is well formed, consecutive
concentration ranges are disjoint and ascending, and consecutive index
ranges are ascending. -/
def TableOK : List (ℚ × ℚ × ℤ × ℤ) → Prop
  | [] => True
  | [r] => RowOK r
  | r :: s :: rest => RowOK r ∧ r.2.1 < s.1 ∧ r.2.2.2 ≤ s.2.2.1 ∧ TableOK (s :: rest)

theorem tableOK_cons {r : ℚ × ℚ × ℤ × ℤ} {t : List (ℚ × ℚ × ℤ × ℤ)}
    (h : TableOK (r :: t)) : RowOK r ∧ TableOK t := by
  match t with
  | [] => exact ⟨h, trivial⟩
  | s :: rest => exact ⟨h.1, h.2.2.2⟩

theorem tableOK_rows {t : List (ℚ × ℚ × ℤ × ℤ)} (h : TableOK t) :
    ∀ r ∈ t, RowOK r := by
  induction t with
  | nil => intro r hr; cases hr
  | cons a t ih =>
    intro r hr
    rcases List.mem_cons.1 hr with rfl | hr
    · exact (tableOK_cons h).1
    · exact ih (tableOK_cons h).2 r hr

theorem tableOK_head_lt {r : ℚ × ℚ × ℤ × ℤ} {t : List (ℚ × ℚ × ℤ × ℤ)}
    (h : TableOK (r :: t)) : ∀ s ∈ t, r.2.1 < s.1 ∧ r.2.2.2 ≤ s.2.2.1 := by
  induction t generalizing r with
  | nil => intro s hs; cases hs
  | cons a t ih =>
    intro s hs
    rcases List.mem_cons.1 hs with rfl | hs
    · exact ⟨h.2.1, h.2.2.1⟩
    · have ha := ih h.2.2.2 s hs
      have haOK : RowOK a := (tableOK_cons h.2.2.2).1
      exact ⟨lt_trans h.2.1 (lt_trans haOK.1 ha.1), le_trans h.2.2.1 (le_trans haOK.2 ha.2)⟩

theorem aqi_none_of_no_match {C : ℚ} {t : List (ℚ × ℚ × ℤ × ℤ)}
    (h : ∀ r ∈ t, ¬(r.1 ≤ C ∧ C ≤ r.2.1)) : aqi_for_concentration C t = none := by
  induction t with
  | nil => rfl
  | cons a t ih =>
    obtain ⟨lo, hi, ilo, ihi⟩ := a
    rw [aqi_for_concentration]
    rw [if_neg (h _ (List.mem_cons_self _ _))]
    exact ih fun r hr => h r (List.mem_cons_of_mem _ hr)

theorem aqi_some_mem {C : ℚ} {t : List (ℚ × ℚ × ℤ × ℤ)} {n : ℤ}
    (h : aqi_for_concentration C t = some n) :
    ∃ r ∈ t, (r.1 ≤ C ∧ C ≤ r.2.1) ∧
      n = pyRound (((r.2.2.2 : ℚ) - r.2.2.1) / (r.2.1 - r.1) * (C - r.1) + r.2.2.1) := by
  induction t with
  | nil => cases h
  | cons a t ih =>
    obtain ⟨lo, hi, ilo, ihi⟩ := a
    rw [aqi_for_concentration] at h
    by_cases hc : lo ≤ C ∧ C ≤ hi
    · rw [if_pos hc] at h
      refine ⟨(lo, hi, ilo, ihi), List.mem_cons_self _ _, hc, ?_⟩
      exact (Option.some_injective _ h).symm
    · rw [if_neg hc] at h
      obtain ⟨r, hr, hrest⟩ := ih h
      exact ⟨r, List.mem_cons_of_mem _ hr, hrest⟩

theorem aqi_lower {C : ℚ} {t : List (ℚ × ℚ × ℤ × ℤ)} {n B : ℤ}
    (hrows : ∀ r ∈ t, RowOK r ∧ B ≤ r.2.2.1)
    (h : aqi_for_concentration C t = some n) : B ≤ n := by
  obtain ⟨r, hr, ⟨h1, h2⟩, rfl⟩ := aqi_some_mem h
  obtain ⟨⟨hlh, hio⟩, hB⟩ := hrows r hr
  exact le_trans hB (seg_lower hlh hio h1)

theorem aqi_upper {C : ℚ} {t : List (ℚ × ℚ × ℤ × ℤ)} {n U : ℤ}
    (hrows : ∀ r ∈ t, RowOK r ∧ r.2.2.2 ≤ U)
    (h : aqi_for_concentration C t = some n) : n ≤ U := by
  obtain ⟨r, hr, ⟨h1, h2⟩, rfl⟩ := aqi_some_mem h
  obtain ⟨⟨hlh, hio⟩, hU⟩ := hrows r hr
  exact le_trans (seg_upper hlh hio h2) hU

theorem aqi_mono {C₁ C₂ : ℚ} {t : List (ℚ × ℚ × ℤ × ℤ)} {n₁ n₂ : ℤ}
    (hok : TableOK t) (hC : C₁ ≤ C₂)
    (h₁ : aqi_for_concentration C₁ t = some n₁)
    (h₂ : aqi_for_concentration C₂ t = some n₂) : n₁ ≤ n₂ := by
  induction t with
  | nil => cases h₁
  | cons a t ih =>
    obtain ⟨lo, hi, ilo, ihi⟩ := a
    have haOK : RowOK (lo, hi, ilo, ihi) := (tableOK_cons hok).1
    rw [aqi_for_concentration] at h₁ h₂
    have hlh : lo < hi := haOK.1
    have hio : ilo ≤ ihi := haOK.2
    by_cases hc₁ : lo ≤ C₁ ∧ C₁ ≤ hi
    · rw [if_pos hc₁, Option.some_inj] at h₁
      subst h₁
      by_cases hc₂ : lo ≤ C₂ ∧ C₂ ≤ hi
      · rw [if_pos hc₂, Option.some_inj] at h₂
        subst h₂
        exact seg_mono hlh hio hC
      · rw [if_neg hc₂] at h₂
        -- C₂ matched a later row; its index is at least `ihi`.
        have hup : pyRound (((ihi : ℚ) - ilo) / (hi - lo) * (C₁ - lo) + ilo) ≤ ihi :=
          seg_upper hlh hio hc₁.2
        have hlow : ihi ≤ n₂ := by
          refine aqi_lower (fun r hr => ?_) h₂
          have hlt := tableOK_head_lt hok r hr
          exact ⟨tableOK_rows (tableOK_cons hok).2 r hr, hlt.2⟩
        omega
    · rw [if_neg hc₁] at h₁
      by_cases hc₂ : lo ≤ C₂ ∧ C₂ ≤ hi
      · -- impossible: C₁ matched a later row whose range lies above `hi`.
        exfalso
        rw [if_pos hc₂] at h₂
        obtain ⟨r, hr, ⟨hr1, _⟩, _⟩ := aqi_some_mem h₁
        have hlt := (tableOK_head_lt hok r hr).1
        have : C₁ ≤ hi := le_trans hC hc₂.2
        simp only at hlt
        linarith
      · rw [if_neg hc₂] at h₂
        exact ih (tableOK_cons hok).2 h₁ h₂

/-! ## Concrete facts about the two shipped tables -/

theorem tableOK_pm25 : TableOK PM25_BREAKPOINTS := by
  simp only [TableOK, RowOK, PM25_BREAKPOINTS]
  norm_num

theorem tableOK_pm10 : TableOK PM10_BREAKPOINTS := by
  simp only [TableOK, RowOK, PM10_BREAKPOINTS]
  norm_num

theorem pm25_rows_bounded :
    ∀ r ∈ PM25_BREAKPOINTS, RowOK r ∧ 0 ≤ r.2.2.1 ∧ r.2.2.2 ≤ 500 := by
  intro r hr
  fin_cases hr <;> norm_num [RowOK]

theorem eval_pm25_35 : aqi_for_concentration 35.0 PM25_BREAKPOINTS = some 99 := by
  simp only [aqi_for_concentration, PM25_BREAKPOINTS]
  norm_num [pyRound]

theorem eval_pm10_80 : aqi_for_concentration 80 PM10_BREAKPOINTS = some 63 := by
  simp only [aqi_for_concentration, PM10_BREAKPOINTS]
  norm_num [pyRound]

theorem eval_pm25_07 : aqi_for_concentration 0.7 PM25_BREAKPOINTS = some 3 := by
  simp only [aqi_for_concentration, PM25_BREAKPOINTS]
  norm_num [pyRound]

/-- Every tenth-of-a-unit concentration up to 500.4 lands in some PM2.5 row. -/
theorem pm25_tenths_some (k : ℕ) (hk : k ≤ 5004) :
    ∃ n, aqi_for_concentration ((k : ℚ) / 10) PM25_BREAKPOINTS = some n := by
  have hk0 : (0 : ℚ) ≤ (k : ℚ) := Nat.cast_nonneg k
  have hktop : (k : ℚ) ≤ 5004 := by exact_mod_cast hk
  simp only [aqi_for_concentration, PM25_BREAKPOINTS]
  split_ifs with h1 h2 h3 h4 h5 h6 h7
  · exact ⟨_, rfl⟩
  · exact ⟨_, rfl⟩
  · exact ⟨_, rfl⟩
  · exact ⟨_, rfl⟩
  · exact ⟨_, rfl⟩
  · exact ⟨_, rfl⟩
  · exact ⟨_, rfl⟩
  · exfalso
    have s1 : (12.0 : ℚ) < (k : ℚ) / 10 := by
      by_contra hcon; push_neg at hcon; exact h1 ⟨by linarith, hcon⟩
    have u1 : (121 : ℚ) ≤ (k : ℚ) := by
      have t : (120 : ℕ) < k := by exact_mod_cast (by linarith : (120 : ℚ) < (k : ℚ))
      exact_mod_cast t
    have s2 : (35.4 : ℚ) < (k : ℚ) / 10 := by
      by_contra hcon; push_neg at hcon; exact h2 ⟨by linarith, hcon⟩
    have u2 : (355 : ℚ) ≤ (k : ℚ) := by
      have t : (354 : ℕ) < k := by exact_mod_cast (by linarith : (354 : ℚ) < (k : ℚ))
      exact_mod_cast t
    have s3 : (55.4 : ℚ) < (k : ℚ) / 10 := by
      by_contra hcon; push_neg at hcon; exact h3 ⟨by linarith, hcon⟩
    have u3 : (555 : ℚ) ≤ (k : ℚ) := by
      have t : (554 : ℕ) < k := by exact_mod_cast (by linarith : (554 : ℚ) < (k : ℚ))
      exact_mod_cast t
    have s4 : (150.4 : ℚ) < (k : ℚ) / 10 := by
      by_contra hcon; push_neg at hcon; exact h4 ⟨by linarith, hcon⟩
    have u4 : (1505 : ℚ) ≤ (k : ℚ) := by
      have t : (1504 : ℕ) < k := by exact_mod_cast (by linarith : (1504 : ℚ) < (k : ℚ))
      exact_mod_cast t
    have s5 : (250.4 : ℚ) < (k : ℚ) / 10 := by
      by_contra hcon; push_neg at hcon; exact h5 ⟨by linarith, hcon⟩
    have u5 : (2505 : ℚ) ≤ (k : ℚ) := by
      have t : (2504 : ℕ) < k := by exact_mod_cast (by linarith : (2504 : ℚ) < (k : ℚ))
      exact_mod_cast t
    have s6 : (350.4 : ℚ) < (k : ℚ) / 10 := by
      by_contra hcon; push_neg at hcon; exact h6 ⟨by linarith, hcon⟩
    have u6 : (3505 : ℚ) ≤ (k : ℚ) := by
      have t : (3504 : ℕ) < k := by exact_mod_cast (by linarith : (3504 : ℚ) < (k : ℚ))
      exact_mod_cast t
    have s7 : (500.4 : ℚ) < (k : ℚ) / 10 := by
      by_contra hcon; push_neg at hcon; exact h7 ⟨by linarith, hcon⟩
    have : (5004 : ℕ) < k := by exact_mod_cast (by linarith : (5004 : ℚ) < (k : ℚ))
    omega

/-! ## Machinery for `compute_aqi_for_pollutants` -/

theorem dictInsert_not_mem {d : List (List Char × Option ℤ)} {k : List Char}
    {v : Option ℤ} (h : ∀ e ∈ d, e.1 ≠ k) : dictInsert d k v = d ++ [(k, v)] := by
  unfold dictInsert
  rw [if_neg]
  intro hcon
  obtain ⟨e, he, heq⟩ := List.any_eq_true.1 hcon
  exact h e he (by simpa using heq)

theorem compute_step_eq (results : List (List Char × Option ℤ))
    (kv : List Char × ℚ) :
    compute_step results kv = dictInsert results kv.1 (pollutant_result kv) := by
  unfold compute_step pollutant_result
  split_ifs <;> rfl

theorem foldl_compute_step (concs : List (List Char × ℚ))
    (acc : List (List Char × Option ℤ))
    (hdisj : ∀ kv ∈ concs, ∀ e ∈ acc, e.1 ≠ kv.1)
    (hnd : (concs.map Prod.fst).Nodup) :
    concs.foldl compute_step acc =
      acc ++ concs.map (fun kv => (kv.1, pollutant_result kv)) := by
  induction concs generalizing acc with
  | nil => simp
  | cons a t ih =>
    rw [List.foldl_cons, compute_step_eq,
      dictInsert_not_mem (fun e he => hdisj a (List.mem_cons_self _ _) e he)]
    rw [List.map_cons] at hnd ⊢
    have hnd' := List.nodup_cons.1 hnd
    rw [ih (acc ++ [(a.1, pollutant_result a)]) ?_ hnd'.2]
    · simp
    · intro kv hkv e he
      rcases List.mem_append.1 he with he | he
      · exact hdisj kv (List.mem_cons_of_mem _ hkv) e he
      · rw [List.mem_singleton] at he
        subst he
        intro hcon
        exact hnd'.1 (hcon ▸ List.mem_map_of_mem Prod.fst hkv)

/-! ## Machinery for the overall AQI -/

theorem foldl_max_mem (a : ℤ) (l : List ℤ) : l.foldl max a ∈ a :: l := by
  induction l generalizing a with
  | nil => simp
  | cons b t ih =>
    rw [List.foldl_cons]
    rcases List.mem_cons.1 (ih (max a b)) with h | h
    · rcases max_choice a b with hm | hm
      · exact List.mem_cons.2 (Or.inl (h.trans hm))
      · exact List.mem_cons_of_mem _ (List.mem_cons.2 (Or.inl (h.trans hm)))
    · exact List.mem_cons_of_mem _ (List.mem_cons_of_mem _ h)

theorem le_foldl_max (a : ℤ) (l : List ℤ) : ∀ x ∈ a :: l, x ≤ l.foldl max a := by
  induction l generalizing a with
  | nil => intro x hx; rw [List.mem_singleton] at hx; simp [hx]
  | cons b t ih =>
    intro x hx
    rw [List.foldl_cons]
    rcases List.mem_cons.1 hx with rfl | hx
    · exact le_trans (le_max_left x b) (ih _ _ (List.mem_cons_self _ _))
    · rcases List.mem_cons.1 hx with rfl | hx
      · exact le_trans (le_max_right a x) (ih _ _ (List.mem_cons_self _ _))
      · exact ih _ x (List.mem_cons_of_mem _ hx)

/-! ## Claim theorems -/

/-- The index computation as the spec words it: find the first row whose
inclusive range contains the value; return
`round(i_lo + (i_hi - i_lo) / (c_hi - c_lo) * (value - c_lo))`, undefined
(`none`) when no row contains the value. -/
def index_for_concentration_spec (value : ℚ) (table : List (ℚ × ℚ × ℤ × ℤ)) :
    Option ℤ :=
  (table.find? (fun r => decide (r.1 ≤ value ∧ value ≤ r.2.1))).map
    (fun r => pyRound ((r.2.2.1 : ℚ) +
      ((r.2.2.2 : ℚ) - r.2.2.1) / (r.2.1 - r.1) * (value - r.1)))

/-- C1: `aqi_for_concentration` scans the table in order and, at the first
row with `bp_lo <= value <= bp_hi` (inclusive bounds), returns
`round(i_lo + (i_hi - i_lo) / (bp_hi - bp_lo) * (value - bp_lo))` as an
integer; when no row contains the value it returns `None`. -/
theorem aqi_for_concentration_eq_spec (value : ℚ) (table : List (ℚ × ℚ × ℤ × ℤ)) :
    aqi_for_concentration value table = index_for_concentration_spec value table := by
  induction table with
  | nil => rfl
  | cons a t ih =>
    obtain ⟨lo, hi, ilo, ihi⟩ := a
    rw [aqi_for_concentration, index_for_concentration_spec]
    by_cases hc : lo ≤ value ∧ value ≤ hi
    · rw [if_pos hc, List.find?_cons_of_pos _ (by simpa using hc)]
      simp only [Option.map_some']
      congr 1
      ring_nf
    · rw [if_neg hc, List.find?_cons_of_neg _ (by simpa using hc), ih,
        index_for_concentration_spec]

/-- C2 counterexample: 12.05 lies in [0, 500.4] yet the PM2.5 index is
undefined — the concentration falls in the gap between the first two rows. -/
theorem pm25_gap_value_undefined :
    ((0 : ℚ) ≤ 12.05 ∧ (12.05 : ℚ) ≤ 500.4) ∧
      aqi_for_concentration 12.05 PM25_BREAKPOINTS = none := by
  constructor
  · norm_num
  · simp only [aqi_for_concentration, PM25_BREAKPOINTS]
    norm_num

/-- C2 (amended): for PM2.5 concentrations that are whole multiples of 0.1
in [0, 500.4] — the resolution at which the table has no gaps — the index is
a defined integer in [0, 500] and is monotone non-decreasing. -/
theorem pm25_index_bounded_monotone (k₁ k₂ : ℕ) (hle : k₁ ≤ k₂)
    (htop : k₂ ≤ 5004) :
    ∃ n₁ n₂ : ℤ,
      aqi_for_concentration ((k₁ : ℚ) / 10) PM25_BREAKPOINTS = some n₁ ∧
      aqi_for_concentration ((k₂ : ℚ) / 10) PM25_BREAKPOINTS = some n₂ ∧
      0 ≤ n₁ ∧ n₁ ≤ 500 ∧ 0 ≤ n₂ ∧ n₂ ≤ 500 ∧ n₁ ≤ n₂ := by
  obtain ⟨n₁, h₁⟩ := pm25_tenths_some k₁ (le_trans hle htop)
  obtain ⟨n₂, h₂⟩ := pm25_tenths_some k₂ htop
  have hcast : ((k₁ : ℚ)) / 10 ≤ (k₂ : ℚ) / 10 := by
    have : (k₁ : ℚ) ≤ (k₂ : ℚ) := by exact_mod_cast hle
    linarith
  refine ⟨n₁, n₂, h₁, h₂, ?_, ?_, ?_, ?_, ?_⟩
  · exact aqi_lower
      (fun r hr => ⟨(pm25_rows_bounded r hr).1, (pm25_rows_bounded r hr).2.1⟩) h₁
  · exact aqi_upper
      (fun r hr => ⟨(pm25_rows_bounded r hr).1, (pm25_rows_bounded r hr).2.2⟩) h₁
  · exact aqi_lower
      (fun r hr => ⟨(pm25_rows_bounded r hr).1, (pm25_rows_bounded r hr).2.1⟩) h₂
  · exact aqi_upper
      (fun r hr => ⟨(pm25_rows_bounded r hr).1, (pm25_rows_bounded r hr).2.2⟩) h₂
  · exact aqi_mono tableOK_pm25 hcast h₁ h₂

/-- Witness for the amended C2 at the extreme pair 0 and 500.4. -/
theorem pm25_index_bounded_monotone_witness :
    ∃ n₁ n₂ : ℤ,
      aqi_for_concentration (((0 : ℕ) : ℚ) / 10) PM25_BREAKPOINTS = some n₁ ∧
      aqi_for_concentration (((5004 : ℕ) : ℚ) / 10) PM25_BREAKPOINTS = some n₂ ∧
      0 ≤ n₁ ∧ n₁ ≤ 500 ∧ 0 ≤ n₂ ∧ n₂ ≤ 500 ∧ n₁ ≤ n₂ :=
  pm25_index_bounded_monotone 0 5004 (by norm_num) (by norm_num)

/-- C3 counterexample: the PM2.5 index of 35.0 is not 80. -/
theorem pm25_35_not_80 :
    aqi_for_concentration 35.0 PM25_BREAKPOINTS ≠ some 80 := by
  rw [eval_pm25_35]
  intro hcon
  exact absurd (Option.some_inj.1 hcon) (by norm_num)

/-- C3 (amended): the PM2.5 index of 35.0 is 99 (row (12.1, 35.4, 51, 100):
round(49 / 23.3 * 22.9 + 51) = round(99.158...) = 99). -/
theorem pm25_35_is_99 :
    aqi_for_concentration 35.0 PM25_BREAKPOINTS = some 99 := eval_pm25_35

/-- C4 counterexample: the PM10 index of 80 is not 72. -/
theorem pm10_80_not_72 :
    aqi_for_concentration 80 PM10_BREAKPOINTS ≠ some 72 := by
  rw [eval_pm10_80]
  intro hcon
  exact absurd (Option.some_inj.1 hcon) (by norm_num)

/-- C4 (amended): the PM10 index of 80 is 63 (row (55, 154, 51, 100):
round(49 / 99 * 25 + 51) = round(63.37...) = 63). -/
theorem pm10_80_is_63 :
    aqi_for_concentration 80 PM10_BREAKPOINTS = some 63 := eval_pm10_80

/-- C5: `aqi_category` classifies an index by the fixed ascending thresholds
50, 100, 150, 200, 300, with everything above 300 in the highest band, and
the boundary transitions are exact at 50/51 and 300/301. -/
theorem aqi_category_bands (i : ℤ) :
    (i ≤ 50 → aqi_category i = "Good") ∧
    (51 ≤ i ∧ i ≤ 100 → aqi_category i = "Moderate") ∧
    (101 ≤ i ∧ i ≤ 150 → aqi_category i = "Unhealthy for Sensitive Groups") ∧
    (151 ≤ i ∧ i ≤ 200 → aqi_category i = "Unhealthy") ∧
    (201 ≤ i ∧ i ≤ 300 → aqi_category i = "Very Unhealthy") ∧
    (300 < i → aqi_category i = "Hazardous") ∧
    aqi_category 50 = "Good" ∧ aqi_category 51 = "Moderate" ∧
    aqi_category 301 = "Hazardous" := by
  refine ⟨?_, ?_, ?_, ?_, ?_, ?_, by decide, by decide, by decide⟩ <;>
    (intro h; unfold aqi_category; split_ifs <;> first | rfl | (exfalso; omega))

/-- C9: `aqi_category` is total on all of `ℤ` and sends every negative
index to the lowest band "Good" instead of failing. -/
theorem aqi_category_neg (i : ℤ) (h : i < 0) : aqi_category i = "Good" := by
  unfold aqi_category
  rw [if_pos (by omega)]

/-- Witness for C9 at the concrete negative index -7. -/
theorem aqi_category_neg_witness : aqi_category (-7) = "Good" :=
  aqi_category_neg (-7) (by norm_num)

/-- C7: when no row of the table contains the concentration,
`aqi_for_concentration` returns `None`; the out-of-range case is an ordinary
value, not a failure. -/
theorem aqi_out_of_range_none (C : ℚ) (t : List (ℚ × ℚ × ℤ × ℤ))
    (h : ∀ r ∈ t, ¬(r.1 ≤ C ∧ C ≤ r.2.1)) :
    aqi_for_concentration C t = none :=
  aqi_none_of_no_match h

/-- Witness for C7: 600 is above the PM2.5 table's top breakpoint 500.4 and
the result is `None`. -/
theorem aqi_out_of_range_none_witness :
    aqi_for_concentration 600 PM25_BREAKPOINTS = none :=
  aqi_out_of_range_none 600 PM25_BREAKPOINTS
    (by intro r hr; fin_cases hr <;> rintro ⟨h1, h2⟩ <;> norm_num at h2)

/-- C10: the tables have gaps between consecutive rows: every PM10
concentration strictly inside (54,55), (154,155), (254,255), (354,355),
(424,425) or (504,505), and every PM2.5 concentration strictly inside
(12.0, 12.1), yields `None` although it is below the table's top
breakpoint. -/
theorem breakpoint_gaps_undefined (c : ℚ) :
    (54 < c → c < 55 → aqi_for_concentration c PM10_BREAKPOINTS = none) ∧
    (154 < c → c < 155 → aqi_for_concentration c PM10_BREAKPOINTS = none) ∧
    (254 < c → c < 255 → aqi_for_concentration c PM10_BREAKPOINTS = none) ∧
    (354 < c → c < 355 → aqi_for_concentration c PM10_BREAKPOINTS = none) ∧
    (424 < c → c < 425 → aqi_for_concentration c PM10_BREAKPOINTS = none) ∧
    (504 < c → c < 505 → aqi_for_concentration c PM10_BREAKPOINTS = none) ∧
    ((12.0 : ℚ) < c → c < 12.1 → aqi_for_concentration c PM25_BREAKPOINTS = none) := by
  refine ⟨?_, ?_, ?_, ?_, ?_, ?_, ?_⟩ <;>
    (intro h1 h2;
     apply aqi_none_of_no_match;
     intro r hr;
     fin_cases hr <;> rintro ⟨ha, hb⟩ <;> norm_num at ha hb <;> linarith)

/-- C6: on any reading set with distinct keys (a Python dict), the result
has exactly one entry per input key, in order; each value is computed from
the table selected by the trimmed, lower-cased key and unrecognized keys
map to `None` instead of failing. -/
theorem compute_aqi_total (concs : List (List Char × ℚ))
    (h : (concs.map Prod.fst).Nodup) :
    compute_aqi_for_pollutants concs =
      concs.map (fun kv => (kv.1, pollutant_result kv)) ∧
    (compute_aqi_for_pollutants concs).map Prod.fst = concs.map Prod.fst := by
  have he : compute_aqi_for_pollutants concs =
      concs.map (fun kv => (kv.1, pollutant_result kv)) := by
    rw [compute_aqi_for_pollutants,
      foldl_compute_step concs [] (fun kv _ e he => absurd he (List.not_mem_nil e)) h]
    simp
  refine ⟨he, ?_⟩
  rw [he, List.map_map]
  rfl

/-- Witness for C6 at the demo reading set. -/
theorem compute_aqi_total_witness :
    compute_aqi_for_pollutants sample =
      sample.map (fun kv => (kv.1, pollutant_result kv)) ∧
    (compute_aqi_for_pollutants sample).map Prod.fst = sample.map Prod.fst :=
  compute_aqi_total sample (by decide)

theorem pollutant_result_pm25_sample :
    pollutant_result ("PM2.5".data, (35.0 : ℚ)) = some 99 := by
  unfold pollutant_result
  split_ifs with h1 h2
  · exact eval_pm25_35
  · exact absurd (Or.inl (by decide)) h1
  · exact absurd (Or.inl (by decide)) h1

theorem pollutant_result_pm10_sample :
    pollutant_result ("PM10".data, (80 : ℚ)) = some 63 := by
  unfold pollutant_result
  split_ifs with h1 h2
  · exfalso; rcases h1 with h | h <;> exact absurd h (by decide)
  · exact eval_pm10_80
  · exact absurd (by decide) h2

theorem pollutant_result_co_sample :
    pollutant_result ("CO".data, (0.7 : ℚ)) = none := by
  unfold pollutant_result
  split_ifs with h1 h2
  · exfalso; rcases h1 with h | h <;> exact absurd h (by decide)
  · exact absurd h2 (by decide)
  · rfl

theorem compute_sample_eval :
    compute_aqi_for_pollutants sample =
      [("PM2.5".data, some 99), ("PM10".data, some 63), ("CO".data, none)] := by
  rw [compute_aqi_for_pollutants,
    foldl_compute_step sample [] (fun kv _ e he => absurd he (List.not_mem_nil e))
      (by decide)]
  simp only [sample, List.map_cons, List.map_nil, List.nil_append]
  rw [pollutant_result_pm25_sample, pollutant_result_pm10_sample,
    pollutant_result_co_sample]

/-- C8 counterexample: the overall index of the demo reading set is not 80. -/
theorem overall_sample_not_80 :
    overall_aqi (compute_aqi_for_pollutants sample) ≠ some 80 := by
  rw [compute_sample_eval]
  decide

/-- C8 (amended): the overall index is the maximum of the defined
per-pollutant indices and is undefined when none is defined; on the demo
reading set {"PM2.5": 35.0, "PM10": 80, "CO": 0.7} it is
max(99, 63) = 99, the unsupported "CO" entry (mapped to `None`) being
ignored by the maximum. -/
theorem overall_aqi_correct :
    (∀ results : List (List Char × Option ℤ),
      (overall_aqi results = none ↔ results.filterMap Prod.snd = []) ∧
      (∀ n : ℤ, overall_aqi results = some n →
        n ∈ results.filterMap Prod.snd ∧
        ∀ m ∈ results.filterMap Prod.snd, m ≤ n)) ∧
    overall_aqi (compute_aqi_for_pollutants sample) = some (max 99 63) ∧
    ("CO".data, (none : Option ℤ)) ∈ compute_aqi_for_pollutants sample := by
  refine ⟨?_, ?_, ?_⟩
  · intro results
    cases hfm : results.filterMap Prod.snd with
    | nil =>
      have ho : overall_aqi results = none := by unfold overall_aqi; rw [hfm]
      constructor
      · simp [ho, hfm]
      · intro n hn; rw [ho] at hn; cases hn
    | cons a rest =>
      have ho : overall_aqi results = some (rest.foldl max a) := by
        unfold overall_aqi; rw [hfm]
      constructor
      · simp [ho, hfm]
      · intro n hn
        rw [ho, Option.some_inj] at hn
        subst hn
        exact ⟨foldl_max_mem a rest, le_foldl_max a rest⟩
  · rw [compute_sample_eval]
    decide
  · rw [compute_sample_eval]
    decide
